import Mathlib

/-!
Shallow embedding of the Video_gen sketch-animation pipeline.

The repository contains five near-duplicate animator variants
(sketch_animate.py, sketch_animate_v2.py, sketch_animate_color.py,
sketch_animate_highlight.py, sketch_animate_whiteboard.py).  Each variant
derives an ordered drawing plan from a raster image, synthesizes one canvas
per output frame and streams the raw frames into an ffmpeg subprocess.
The definitions below translate the relevant functions of those files;
rasterization internals of OpenCV (which pixels a contour or line covers)
are abstracted as pixel-set parameters, and the NumPy global random
generator is modelled as an explicit state value.
-/

namespace VideoGen

/-- One 8-bit RGB pixel. -/
structure RGB where
  r : Nat
  g : Nat
  b : Nat
deriving DecidableEq, Repr

/-- White pixel, the blank canvas color. -/
def white : RGB := ⟨255, 255, 255⟩

/-- Black pixel, the stroke color used by the animators. -/
def black : RGB := ⟨0, 0, 0⟩

/-- A raster frame: row-major list of rows of pixels. -/
abbrev Image := List (List RGB)

/-- Model of np.ones((height, width, 3), dtype=np.uint8) * 255. -/
def whiteCanvas (height width : Nat) : Image :=
  List.replicate height (List.replicate width white)

/-- The frame has exactly the declared dimensions: height rows, each of width pixels. -/
def hasDims (img : Image) (height width : Nat) : Prop :=
  img.length = height ∧ ∀ row ∈ img, row.length = width

instance (img : Image) (height width : Nat) : Decidable (hasDims img height width) := by
  unfold hasDims; infer_instance

/-- Index-aware map, used to model pixel-wise canvas updates at absolute coordinates. -/
def mapIdxFrom (f : Nat → α → β) : Nat → List α → List β
  | _, [] => []
  | i, a :: as => f i a :: mapIdxFrom f (i + 1) as

/-- Set every pixel (y, x) selected by s to the given color.  This models an
OpenCV raster draw (cv2.drawContours / cv2.line) whose covered pixel set is s. -/
def paintPixels (s : Nat → Nat → Bool) (c : RGB) (img : Image) : Image :=
  mapIdxFrom (fun y row => mapIdxFrom (fun x p => if s y x then c else p) 0 row) 0 img

/-- A contour as produced by cv2.findContours in SketchAnimatorV2.extract_contours,
abstracted to the pixel sets covered by its fill (thickness -1) and stroke
(thickness 2) rasterizations. -/
structure Contour where
  fillSet : Nat → Nat → Bool
  strokeSet : Nat → Nat → Bool

/-- Number of primitives revealed at frame index i of N:
the code computes progress = (frame_idx + 1) / total_frames and then
int(total * progress); over exact arithmetic this is the floor below. -/
def revealCount (total N i : Nat) : Nat :=
  total * (i + 1) / N

/-- Draw the first k contours of the plan onto the canvas, fill then stroke per
contour in plan order (the inner loop of SketchAnimatorV2.create_animation). -/
def drawContoursUpTo (cs : List Contour) (k : Nat) (canvas : Image) : Image :=
  (cs.take k).foldl
    (fun acc c => paintPixels c.strokeSet black (paintPixels c.fillSet black acc))
    canvas

/-- One frame of SketchAnimatorV2.create_animation: a fresh white canvas with
contours_to_draw = int(len(contours) * progress) contours drawn. -/
def renderFrameV2 (cs : List Contour) (height width N i : Nat) : Image :=
  drawContoursUpTo cs (revealCount cs.length N i) (whiteCanvas height width)

/-- The full sequence of frames written to the encoder input pipe by the frame
loop of SketchAnimatorV2.create_animation (one write per frame index in
range(total_frames)). -/
def framesV2 (cs : List Contour) (height width N : Nat) : List Image :=
  (List.range N).map (renderFrameV2 cs height width N)

/-- Pixel lookup with a default (used when copying source colors onto a canvas). -/
def pixelAtD (img : Image) (y x : Nat) (d : RGB) : RGB :=
  match img.get? y with
  | none => d
  | some row => (row.get? x).getD d

/-- Write one pixel of the canvas (canvas[y, x] = c), leaving shape unchanged. -/
def setPixel (img : Image) (y x : Nat) (c : RGB) : Image :=
  match img.get? y with
  | none => img
  | some row => img.set y (row.set x c)

/-- Copy the source color onto the canvas at every coordinate in the list
(canvas[ys, xs] = img_color[ys, xs] in the color variant). -/
def paintFromSource (coords : List (Nat × Nat)) (src canvas : Image) : Image :=
  coords.foldl (fun acc yx => setPixel acc yx.1 yx.2 (pixelAtD src yx.1 yx.2 white)) canvas

/-- Average of a 3x3 neighbourhood, modelling one output pixel of
cv2.GaussianBlur(canvas, (3, 3), 0); out-of-image samples fall back to the
center pixel (border replication).  Only shape preservation matters here. -/
def blurPixel (img : Image) (y x : Nat) : RGB :=
  let c := pixelAtD img y x white
  let near : List RGB :=
    [pixelAtD img (y - 1) (x - 1) c, pixelAtD img (y - 1) x c,
     pixelAtD img (y - 1) (x + 1) c, pixelAtD img y (x - 1) c, c,
     pixelAtD img y (x + 1) c, pixelAtD img (y + 1) (x - 1) c,
     pixelAtD img (y + 1) x c, pixelAtD img (y + 1) (x + 1) c]
  ⟨(near.map RGB.r).sum / 9, (near.map RGB.g).sum / 9, (near.map RGB.b).sum / 9⟩

/-- Model of cv2.GaussianBlur with a 3x3 kernel: a pixel-wise neighbourhood map. -/
def gaussianBlur3 (img : Image) : Image :=
  mapIdxFrom (fun y row => mapIdxFrom (fun x _ => blurPixel img y x) 0 row) 0 img

/-- Model of cv2.cvtColor(canvas, cv2.COLOR_BGR2RGB): swap the first and third
channel of every pixel. -/
def bgr2rgb (img : Image) : Image :=
  img.map (fun row => row.map fun p => ⟨p.b, p.g, p.r⟩)

/-- One frame of ColorSketchAnimator.create_color_animation: white canvas, the
first pixels_to_draw plan pixels copied from the source image, a Gaussian blur
on every tenth frame after the first, then BGR to RGB conversion for ffmpeg. -/
def renderFrameColor (imgColor : Image) (px : List (Nat × Nat))
    (height width N i : Nat) : Image :=
  let k := revealCount px.length N i
  let canvas := whiteCanvas height width
  let canvas :=
    if 0 < k then
      let painted := paintFromSource (px.take k) imgColor canvas
      if 0 < i ∧ i % 10 = 0 then gaussianBlur3 painted else painted
    else canvas
  bgr2rgb canvas

/-- Frames written to the encoder pipe by ColorSketchAnimator.create_color_animation. -/
def framesColor (imgColor : Image) (px : List (Nat × Nat))
    (height width N : Nat) : List Image :=
  (List.range N).map (renderFrameColor imgColor px height width N)

/-- Coordinates (y, x) of the true entries of a boolean mask in row-major order,
modelling np.column_stack(np.where(mask > 0)). -/
def whereNonzero (mask : List (List Bool)) : List (Nat × Nat) :=
  (mapIdxFrom
    (fun y row =>
      (mapIdxFrom (fun x b => if b then [(y, x)] else []) 0 row).flatten)
    0 mask).flatten

/-- Stroke-pixel selection of ColorSketchAnimator.create_color_animation (the
identical code also appears in HighlightAnimator.create_highlight_animation):
if no mask pixel is set, fall back to every coordinate of the full
height x width canvas (np.ones((height, width), dtype=bool)). -/
def strokePixelsWithFallback (mask : List (List Bool)) (height width : Nat) :
    List (Nat × Nat) :=
  let px := whereNonzero mask
  if px.length = 0 then
    whereNonzero (List.replicate height (List.replicate width true))
  else px

/-- An outline stroke path of WhiteboardAnimator.extract_drawing_strokes: the
approximated point list, together with the pixel set covered by rasterizing its
first k polyline segments with cv2.line (thickness 3, anti-aliased), abstracted
as coverUpTo k. -/
structure WBPath where
  points : List (Nat × Nat)
  coverUpTo : Nat → Nat → Nat → Bool

/-- A color-fill region of WhiteboardAnimator.extract_drawing_strokes: the pixel
set covered by cv2.drawContours(mask, [contour], 0, 255, -1). -/
structure WBFill where
  mask : Nat → Nat → Bool

/-- Guard at the start of create_whiteboard_animation:
if img_color is None or (not outline_paths and not color_fills): return False.
The run proceeds only when the image loaded and at least one primitive survived
the noise filter; there is no full-canvas fallback in this variant. -/
def wbRunProceeds (imgLoaded : Bool) (outlinePaths : List WBPath)
    (colorFills : List WBFill) : Bool :=
  imgLoaded && !(outlinePaths.isEmpty && colorFills.isEmpty)

/-- The three frame phases of the whiteboard animation. -/
inductive WBPhase
  | outline
  | fill
  | hold
deriving DecidableEq, Repr

/-- Branch selected by the if / elif / else chain of the frame loop in
create_whiteboard_animation for a given frame index. -/
def wbPhase (outlineFrames : Nat) (outlinePaths : List WBPath)
    (colorFills : List WBFill) (frameIdx : Nat) : WBPhase :=
  if frameIdx < outlineFrames ∧ outlinePaths.isEmpty = false then .outline
  else if outlineFrames ≤ frameIdx ∧ colorFills.isEmpty = false then .fill
  else .hold

/-- Progressive outline drawing loop of pass 1: draws each whole stroke whose
points still fit under the target count, then one partial stroke, then stops.
The hand-cursor overlay (drawn while the pass is incomplete) is omitted; it
never applies to the frames analysed below. -/
def drawOutlineLoop (target : Nat) : List WBPath → Nat → Image → Image
  | [], _, canvas => canvas
  | p :: ps, drawn, canvas =>
    if drawn + p.points.length ≤ target then
      drawOutlineLoop target ps (drawn + p.points.length)
        (paintPixels (p.coverUpTo p.points.length) black canvas)
    else if drawn < target then
      paintPixels (p.coverUpTo (target - drawn)) black canvas
    else canvas

/-- Copy src colors onto the canvas wherever the mask is set
(canvas[mask > 0] = img_color[mask > 0]). -/
def copyWhere (s : Nat → Nat → Bool) (src canvas : Image) : Image :=
  mapIdxFrom
    (fun y row =>
      mapIdxFrom (fun x p => if s y x then pixelAtD src y x p else p) 0 row)
    0 canvas

/-- Pass 2 frame of create_whiteboard_animation: all outlines drawn in full,
then int(total_color_fills * color_progress) fills (capped at the fill count)
copied from the enhanced image, onto a fresh white canvas.  The cursor overlay
is omitted; the code draws it only while fills_to_draw < total_color_fills. -/
def renderWBFillPass (outlinePaths : List WBPath) (colorFills : List WBFill)
    (imgColor : Image) (height width outlineFrames colorFrames frameIdx : Nat) :
    Image :=
  let canvas := outlinePaths.foldl
    (fun acc p => paintPixels (p.coverUpTo p.points.length) black acc)
    (whiteCanvas height width)
  let fillsToDraw := revealCount colorFills.length colorFrames (frameIdx - outlineFrames)
  ((colorFills.take (min fillsToDraw colorFills.length)).foldl
    (fun acc f => copyWhere f.mask imgColor acc) canvas)

/-- One frame (before the BGR to RGB conversion) of the whiteboard frame loop:
pass 1 draws outlines progressively, pass 2 draws completed outlines plus
progressive fills, and only the residual else branch emits the enhanced source
image verbatim (canvas = img_color.copy()). -/
def renderWBFrame (outlinePaths : List WBPath) (colorFills : List WBFill)
    (imgColor : Image) (height width outlineFrames colorFrames : Nat)
    (frameIdx : Nat) : Image :=
  match wbPhase outlineFrames outlinePaths colorFills frameIdx with
  | .outline =>
    let totalPoints := (outlinePaths.map (fun p => p.points.length)).sum
    drawOutlineLoop (revealCount totalPoints outlineFrames frameIdx)
      outlinePaths 0 (whiteCanvas height width)
  | .fill =>
    renderWBFillPass outlinePaths colorFills imgColor height width
      outlineFrames colorFrames frameIdx
  | .hold => imgColor

/-- Result of waiting on the encoder process after closing its input pipe. -/
inductive WaitResult
  | timedOut
  | exited (code : Int)

/-- How one run ends: the boolean the animator returns, whether any code path
terminated (killed) the encoder subprocess, and whether the temporary working
directory was removed. -/
structure RunEnd where
  success : Bool
  processKilled : Bool
  tempDirRemoved : Bool
deriving DecidableEq, Repr

/-- Tail of SketchAnimatorV2.create_animation after stdin.close(): the code
calls ffmpeg_process.wait(timeout=60); a timeout raises TimeoutExpired, which
the blanket except handler turns into return False, exactly like any other
failure; no code path calls kill or terminate on the process; the finally
block always removes the temp directory (shutil.rmtree). -/
def finishV2 : WaitResult → RunEnd
  | .timedOut => ⟨false, false, true⟩
  | .exited c => ⟨decide (c = 0), false, true⟩

/-- Ways the streaming phase of SketchAnimator.create_animation_frames_stream
can end: a BrokenPipeError while writing frames, another write exception, a
wait timeout, or process exit with a code. -/
inductive StreamEnd
  | brokenPipe
  | writeError
  | timedOut
  | exited (code : Int)

/-- Outcome of SketchAnimator.process for each streaming end: every failure
branch returns False (the BrokenPipeError handler, the generic write handler,
and the TimeoutExpired propagating into the outer except); exit code zero
returns True; no branch terminates the ffmpeg process; the finally block of
process always removes the temp directory. -/
def processRun : StreamEnd → RunEnd
  | .brokenPipe => ⟨false, false, true⟩
  | .writeError => ⟨false, false, true⟩
  | .timedOut => ⟨false, false, true⟩
  | .exited c => ⟨decide (c = 0), false, true⟩

/-- State of the NumPy global random generator. -/
structure NpRng where
  state : Nat
deriving DecidableEq

/-- Model of np.random.seed(n): the global generator state becomes a pure
function of the constant n alone, discarding whatever state was there. -/
def npSeed (n : Nat) : NpRng := ⟨n⟩

/-- The i-th draw of np.random.randn from a given generator state: a fixed pure
function of (state, i).  The concrete mixing formula stands in for the MT19937
normal variates; only its determinism matters for the ordering claims. -/
def randn (g : NpRng) (i : Nat) : Int :=
  (((g.state + i) * 1103515245 + 12345) % 65536 : Nat) - 32768

/-- Insert into a list sorted by the given comparison (kept stable). -/
def insertBy (le : α → α → Bool) (a : α) : List α → List α
  | [] => [a]
  | b :: bs => if le a b then a :: b :: bs else b :: insertBy le a bs

/-- Insertion sort, a deterministic model of np.argsort followed by indexing. -/
def sortBy (le : α → α → Bool) : List α → List α
  | [] => []
  | a :: as => insertBy le a (sortBy le as)

/-- Pair every plan pixel with its jittered score and sort by score:
score = y * wy + x * wx + randn(i) * js, then argsort. -/
def orderByJitteredScore (wy wx js : ℚ) (g : NpRng)
    (px : List (Nat × Nat)) : List (Nat × Nat) :=
  let scored := mapIdxFrom
    (fun i p => ((p.1 : ℚ) * wy + (p.2 : ℚ) * wx + (randn g i : ℚ) * js, p))
    0 px
  (sortBy (fun a b => decide (a.1 ≤ b.1)) scored).map (fun a => a.2)

/-- Plan ordering of ColorSketchAnimator.create_color_animation: the code first
executes np.random.seed(42) (overwriting the ambient generator state env), then
scores = y * 0.6 + x * 0.4 + randn * 20 and sorts by score. -/
def colorOrderedPixels (_env : NpRng) (px : List (Nat × Nat)) : List (Nat × Nat) :=
  let g := npSeed 42
  orderByJitteredScore (6 / 10) (4 / 10) 20 g px

/-- Plan ordering of HighlightAnimator.create_highlight_animation: seed(42),
then scores = y * 0.5 + x * 0.5 + randn * 30 and sort by score. -/
def highlightOrderedPixels (_env : NpRng) (px : List (Nat × Nat)) :
    List (Nat × Nat) :=
  let g := npSeed 42
  orderByJitteredScore (5 / 10) (5 / 10) 30 g px

/-- Cursor pulse factor of HighlightAnimator (pulse = 0.8 + 0.2 * sin(frame_idx
* 0.3)); the argument s abstracts the mathematical sine function. -/
def hlPulse (s : ℚ → ℚ) (frameIdx : Nat) : ℚ :=
  8 / 10 + 2 / 10 * s ((frameIdx : ℚ) * (3 / 10))

/-- Cursor radius of HighlightAnimator: cursor_radius = int(cursor_size * pulse)
with cursor_size = 25. -/
def hlCursorRadius (s : ℚ → ℚ) (frameIdx : Nat) : ℤ :=
  ⌊(25 : ℚ) * hlPulse s frameIdx⌋

/-- Cursor pulse factor of WhiteboardAnimator.draw_hand_cursor
(pulse = 0.85 + 0.15 * sin(frame_idx * 0.2)). -/
def wbPulse (s : ℚ → ℚ) (frameIdx : Nat) : ℚ :=
  85 / 100 + 15 / 100 * s ((frameIdx : ℚ) * (2 / 10))

/-- Cursor size of WhiteboardAnimator.draw_hand_cursor: size = int(20 * pulse). -/
def wbCursorSize (s : ℚ → ℚ) (frameIdx : Nat) : ℤ :=
  ⌊(20 : ℚ) * wbPulse s frameIdx⌋

/-- Cursor radius asserted by the claim: base * (0.8 + 0.2 * sin(i * k)). -/
def claimedCursorRadius (base kf : ℚ) (s : ℚ → ℚ) (i : Nat) : ℚ :=
  base * (8 / 10 + 2 / 10 * s ((i : ℚ) * kf))

/-- Stand-in sine oracle used only at argument 0, where sin 0 = 0: every model
of the sine function agrees with it at the points the closed statements below
evaluate. -/
def sinAtZero : ℚ → ℚ := fun _ => 0

/-- A binary image (the thresholded array named binary in preprocess_image). -/
abbrev Bin (H W : Nat) := Fin H → Fin W → Bool

/-- Model of cv2.countNonZero. -/
def countNZ (b : Bin H W) : Nat :=
  (Finset.univ.filter fun p : Fin H × Fin W => b p.1 p.2 = true).card

/-- Model of cv2.erode with the 3x3 ones kernel and the default border value:
out-of-image samples are treated as foreground, so a pixel stays foreground iff
every in-grid neighbour at Chebyshev distance at most one (itself included) is
foreground. -/
def erode3 (b : Bin H W) : Bin H W := fun y x =>
  decide (∀ y2 : Fin H, ∀ x2 : Fin W,
    Nat.dist y2.val y.val ≤ 1 → Nat.dist x2.val x.val ≤ 1 → b y2 x2 = true)

/-- The erosion chain binary, erode(binary), erode(erode(binary)), ... produced
by the while-True loop of preprocess_image (binary = eroded.copy() each pass). -/
def erodeIter : Nat → Bin H W → Bin H W
  | 0, b => b
  | n + 1, b => erode3 (erodeIter n b)

/-- The skeletonization while-loop exits iff some iterate of the erosion chain
has no foreground pixels (the break fires on cv2.countNonZero(binary) == 0). -/
def skelLoopExits (b : Bin H W) : Prop :=
  ∃ n, countNZ (erodeIter n b) = 0

/-- The all-foreground 2x2 binary image (every pixel 255). -/
def allFg2 : Bin 2 2 := fun _ _ => true

/-- Step one coordinate toward a target coordinate, staying inside the grid. -/
def stepToward (a b : Fin H) : Fin H :=
  if h : a.val < b.val then ⟨a.val + 1, Nat.lt_of_le_of_lt h b.isLt⟩
  else if b.val < a.val then ⟨a.val - 1, Nat.lt_of_le_of_lt (Nat.sub_le a.val 1) a.isLt⟩
  else a

/-- Model of SketchAnimator.render_svg_frame_simple: returns None when OpenCV
is absent; otherwise the try body either produces a canvas (some frame) or
raises, in which case the except handler returns a fresh all-white canvas of
the requested shape. -/
def renderSvgFrameSimple (hasCV2 : Bool) (height width : Nat)
    (body : Option Image) : Option Image :=
  if hasCV2 = false then none
  else
    match body with
    | some f => some f
    | none => some (whiteCanvas height width)

/-- The rendered_frames list built by create_animation_frames_stream: per frame
index the render result is appended only when it is not None. -/
def renderedFramesTrace (hasCV2 : Bool) (height width N : Nat)
    (body : Nat → Option Image) : List Image :=
  (List.range N).filterMap (fun i => renderSvgFrameSimple hasCV2 height width (body i))

/-- Diagonal sweep reveal mask of the try body of render_svg_frame_simple:
distance_from_topleft = ((x / width) + (y / height)) / 2, revealed when it is
at most reveal_ratio = num_paths_to_render / max(1, total_svg_paths). -/
def diagonalRevealMask (height width num total y x : Nat) : Bool :=
  decide ((((x : ℚ) / width + (y : ℚ) / height) / 2) ≤ (num : ℚ) / (max 1 total))

/-- The try body of render_svg_frame_simple when OpenCV is present: a fresh
white (height, width, 3) canvas; with at least one path to render, the PIL
branch only rebuilds the same white canvas (its draw loop is a pass), and when
the cleaned image cache exists every pixel becomes the cached pixel where the
diagonal reveal mask is set and 255 elsewhere (np.where(mask > 0, cache, 255)).
Every branch yields a canvas of the requested shape. -/
def renderTraceBody (cache : Option Image) (pathsToDraw totalPaths height width : Nat) :
    Image :=
  let num := min pathsToDraw totalPaths
  let canvas := whiteCanvas height width
  if 0 < num then
    match cache with
    | some full =>
      mapIdxFrom
        (fun y row =>
          mapIdxFrom
            (fun x _ =>
              if diagonalRevealMask height width num totalPaths y x then
                pixelAtD full y x white
              else white)
            0 row)
        0 canvas
    | none => canvas
  else canvas

/-- Frames streamed to the encoder by create_animation_frames_stream when
OpenCV is present: per frame index in range(total_frames) the code computes
paths_to_draw = max(1, int(len(paths) * progress)) and appends the render
result unless it is None; a body that raises is replaced by the white canvas
inside render_svg_frame_simple.  raised marks the frame indices whose try body
raised. -/
def framesTrace (cache : Option Image) (raised : Nat → Bool)
    (nPaths height width N : Nat) : List Image :=
  (List.range N).filterMap (fun i =>
    renderSvgFrameSimple true height width
      (if raised i then none
       else some (renderTraceBody cache (max 1 (nPaths * (i + 1) / N)) nPaths height width)))

/-- A 2x2 binary image with a single background pixel at (0, 0). -/
def oneBg2 : Bin 2 2 := fun y x => decide (0 < y.val ∨ 0 < x.val)

/-! Helper lemmas shared by the claim theorems. -/

theorem length_mapIdxFrom (f : Nat → α → β) :
    ∀ (i : Nat) (l : List α), (mapIdxFrom f i l).length = l.length
  | _, [] => rfl
  | i, _ :: as => by simp [mapIdxFrom, length_mapIdxFrom f (i + 1) as]

theorem mem_mapIdxFrom {f : Nat → α → β} :
    ∀ {i : Nat} {l : List α} {b : β},
      b ∈ mapIdxFrom f i l → ∃ j a, a ∈ l ∧ b = f j a := by
  intro i l
  induction l generalizing i with
  | nil => intro b h; simp [mapIdxFrom] at h
  | cons a as ih =>
    intro b h
    rw [mapIdxFrom] at h
    rcases List.mem_cons.mp h with h1 | h2
    · exact ⟨i, a, List.mem_cons_self a as, h1⟩
    · obtain ⟨j, a2, ha, hb⟩ := ih h2
      exact ⟨j, a2, List.mem_cons_of_mem a ha, hb⟩

theorem hasDims_whiteCanvas (height width : Nat) :
    hasDims (whiteCanvas height width) height width := by
  constructor
  · simp [whiteCanvas]
  · intro row hr
    rw [List.eq_of_mem_replicate hr]
    simp

theorem hasDims_rowMap {img : Image} {height width : Nat}
    (g : Nat → List RGB → List RGB)
    (hg : ∀ y row, (g y row).length = row.length)
    (hd : hasDims img height width) :
    hasDims (mapIdxFrom g 0 img) height width := by
  constructor
  · rw [length_mapIdxFrom]; exact hd.1
  · intro row hr
    obtain ⟨j, row0, hmem, hrow⟩ := mem_mapIdxFrom hr
    rw [hrow, hg]
    exact hd.2 row0 hmem

theorem hasDims_paintPixels {img : Image} {height width : Nat}
    (s : Nat → Nat → Bool) (c : RGB) (hd : hasDims img height width) :
    hasDims (paintPixels s c img) height width :=
  hasDims_rowMap _ (fun _ _ => length_mapIdxFrom _ _ _) hd

theorem hasDims_copyWhere {src img : Image} {height width : Nat}
    (s : Nat → Nat → Bool) (hd : hasDims img height width) :
    hasDims (copyWhere s src img) height width :=
  hasDims_rowMap _ (fun _ _ => length_mapIdxFrom _ _ _) hd

theorem hasDims_gaussianBlur3 {img : Image} {height width : Nat}
    (hd : hasDims img height width) :
    hasDims (gaussianBlur3 img) height width :=
  hasDims_rowMap _ (fun _ _ => length_mapIdxFrom _ _ _) hd

theorem hasDims_setPixel {img : Image} {height width : Nat}
    (y x : Nat) (c : RGB) (hd : hasDims img height width) :
    hasDims (setPixel img y x c) height width := by
  unfold setPixel
  cases hget : img.get? y with
  | none => exact hd
  | some row =>
    have hrow : row ∈ img := List.get?_mem hget
    constructor
    · rw [List.length_set]; exact hd.1
    · intro r hr
      rcases List.mem_or_eq_of_mem_set hr with h1 | h2
      · exact hd.2 r h1
      · rw [h2, List.length_set]; exact hd.2 row hrow

theorem foldl_preserves {P : β → Prop} (step : β → α → β)
    (hstep : ∀ b a, P b → P (step b a)) :
    ∀ (l : List α) (b : β), P b → P (l.foldl step b)
  | [], _, hb => hb
  | a :: as, b, hb => foldl_preserves step hstep as (step b a) (hstep b a hb)

theorem hasDims_bgr2rgb {img : Image} {height width : Nat}
    (hd : hasDims img height width) :
    hasDims (bgr2rgb img) height width := by
  constructor
  · simp [bgr2rgb]; exact hd.1
  · intro row hr
    simp [bgr2rgb] at hr
    obtain ⟨row0, hmem, hrow⟩ := hr
    rw [← hrow]
    simp
    exact hd.2 row0 hmem

theorem hasDims_renderFrameV2 (cs : List Contour) (height width N i : Nat) :
    hasDims (renderFrameV2 cs height width N i) height width := by
  unfold renderFrameV2 drawContoursUpTo
  exact @foldl_preserves _ _ (fun img => hasDims img height width) _
    (fun img c hd => hasDims_paintPixels _ _ (hasDims_paintPixels _ _ hd))
    _ _ (hasDims_whiteCanvas height width)

theorem hasDims_renderFrameColor (imgColor : Image) (px : List (Nat × Nat))
    (height width N i : Nat) :
    hasDims (renderFrameColor imgColor px height width N i) height width := by
  unfold renderFrameColor
  apply hasDims_bgr2rgb
  have hwhite := hasDims_whiteCanvas height width
  have hpaint : hasDims (paintFromSource (px.take (revealCount px.length N i))
      imgColor (whiteCanvas height width)) height width := by
    unfold paintFromSource
    exact @foldl_preserves _ _ (fun img => hasDims img height width) _
      (fun img yx hd => hasDims_setPixel _ _ _ hd) _ _ hwhite
  split
  · split
    · exact hasDims_gaussianBlur3 hpaint
    · exact hpaint
  · exact hwhite

theorem hasDims_renderTraceBody (cache : Option Image)
    (pathsToDraw totalPaths height width : Nat) :
    hasDims (renderTraceBody cache pathsToDraw totalPaths height width) height width := by
  have hwhite := hasDims_whiteCanvas height width
  cases cache with
  | none =>
    unfold renderTraceBody
    dsimp only
    split <;> exact hwhite
  | some full =>
    unfold renderTraceBody
    dsimp only
    split
    · exact hasDims_rowMap _ (fun _ _ => length_mapIdxFrom _ _ _) hwhite
    · exact hwhite

theorem length_filterMap_of_isSome {f : α → Option β} :
    ∀ l : List α, (∀ a ∈ l, (f a).isSome = true) →
      (l.filterMap f).length = l.length := by
  intro l
  induction l with
  | nil => intro _; rfl
  | cons a as ih =>
    intro h
    have ha := h a (List.mem_cons_self a as)
    cases hfa : f a with
    | none => rw [hfa] at ha; simp at ha
    | some b =>
      rw [List.filterMap_cons, hfa]
      simp only [List.length_cons]
      rw [ih (fun a2 ha2 => h a2 (List.mem_cons_of_mem a ha2))]

theorem erode3_self {H W : Nat} {b : Bin H W} {y : Fin H} {x : Fin W}
    (h : erode3 b y x = true) : b y x = true := by
  rw [erode3, decide_eq_true_eq] at h
  exact h y x (by simp [Nat.dist_self]) (by simp [Nat.dist_self])

theorem erode3_false_of_adj {H W : Nat} {b : Bin H W} {y y2 : Fin H} {x x2 : Fin W}
    (hb : b y2 x2 = false) (hy : Nat.dist y2.val y.val ≤ 1)
    (hx : Nat.dist x2.val x.val ≤ 1) : erode3 b y x = false := by
  cases hE : erode3 b y x with
  | false => rfl
  | true =>
    rw [erode3, decide_eq_true_eq] at hE
    have := hE y2 x2 hy hx
    rw [hb] at this
    exact absurd this (by simp)

theorem stepToward_dist_le {H : Nat} {a b : Fin H} {d : Nat}
    (h : Nat.dist a.val b.val ≤ d + 1) :
    Nat.dist (stepToward a b).val b.val ≤ d := by
  unfold stepToward
  split
  · next hlt => simp only [Nat.dist] at h ⊢; omega
  · split
    · next hgt => simp only [Nat.dist] at h ⊢; omega
    · next h1 h2 => simp only [Nat.dist]; omega

theorem stepToward_adj {H : Nat} (a b : Fin H) :
    Nat.dist (stepToward a b).val a.val ≤ 1 := by
  unfold stepToward
  split
  · simp only [Nat.dist]; omega
  · split
    · simp only [Nat.dist]; omega
    · simp only [Nat.dist]; omega

theorem bgReach {H W : Nat} :
    ∀ (d : Nat) (b : Bin H W) (py qy : Fin H) (px qx : Fin W),
      b qy qx = false → Nat.dist py.val qy.val ≤ d →
      Nat.dist px.val qx.val ≤ d → erodeIter d b py px = false := by
  intro d
  induction d with
  | zero =>
    intro b py qy px qx hq hy hx
    have hey : py = qy := Fin.ext (Nat.eq_of_dist_eq_zero (Nat.le_zero.mp hy))
    have hex : px = qx := Fin.ext (Nat.eq_of_dist_eq_zero (Nat.le_zero.mp hx))
    rw [hey, hex]
    exact hq
  | succ d ih =>
    intro b py qy px qx hq hy hx
    have hprev := ih b (stepToward py qy) qy (stepToward px qx) qx hq
      (stepToward_dist_le hy) (stepToward_dist_le hx)
    show erode3 (erodeIter d b) py px = false
    exact erode3_false_of_adj hprev (stepToward_adj py qy) (stepToward_adj px qx)

theorem countNZ_eq_zero_iff {H W : Nat} {b : Bin H W} :
    countNZ b = 0 ↔ ∀ (y : Fin H) (x : Fin W), b y x = false := by
  unfold countNZ
  rw [Finset.card_eq_zero, Finset.filter_eq_empty_iff]
  constructor
  · intro h y x
    have := h (Finset.mem_univ (y, x))
    simpa using this
  · intro h p _
    simp [h p.1 p.2]

/-! Claim theorems. -/

/-- C1: for every configuration with N = fps * duration frames, the frame loops
of SketchAnimatorV2.create_animation, of
ColorSketchAnimator.create_color_animation and of
SketchAnimator.create_animation_frames_stream (with OpenCV present, for every
combination of render-body outcomes and cache state) write exactly N frames to
the encoder input pipe, and every frame has exactly the declared height x width
dimensions. -/
theorem c1_synthesizer_frame_count_and_dims (cs : List Contour)
    (imgColor : Image) (px : List (Nat × Nat)) (cache : Option Image)
    (raised : Nat → Bool) (nPaths height width fps duration : Nat) :
    (framesV2 cs height width (fps * duration)).length = fps * duration
    ∧ (∀ f ∈ framesV2 cs height width (fps * duration), hasDims f height width)
    ∧ (framesColor imgColor px height width (fps * duration)).length = fps * duration
    ∧ (∀ f ∈ framesColor imgColor px height width (fps * duration),
        hasDims f height width)
    ∧ (framesTrace cache raised nPaths height width (fps * duration)).length
        = fps * duration
    ∧ ∀ f ∈ framesTrace cache raised nPaths height width (fps * duration),
        hasDims f height width := by
  refine ⟨by simp [framesV2], ?_, by simp [framesColor], ?_, ?_, ?_⟩
  · intro f hf
    obtain ⟨i, _, hfi⟩ := List.mem_map.mp hf
    rw [← hfi]
    exact hasDims_renderFrameV2 cs height width _ i
  · intro f hf
    obtain ⟨i, _, hfi⟩ := List.mem_map.mp hf
    rw [← hfi]
    exact hasDims_renderFrameColor imgColor px height width _ i
  · unfold framesTrace
    rw [length_filterMap_of_isSome _ (fun i _ => by
      cases hri : raised i <;> simp [hri, renderSvgFrameSimple])]
    exact List.length_range _
  · intro f hf
    obtain ⟨i, _, hsome⟩ := List.mem_filterMap.mp hf
    cases hri : raised i <;> rw [hri] at hsome <;>
      simp only [if_pos rfl, if_neg, Bool.false_eq_true, if_false, if_true,
        renderSvgFrameSimple, Bool.true_eq_false, reduceIte,
        Option.some.injEq] at hsome
    · rw [← hsome]
      exact hasDims_renderTraceBody cache _ nPaths height width
    · rw [← hsome]
      exact hasDims_whiteCanvas height width

/-- C2: the number of primitives revealed at frame index i, derived from
progress (i + 1) / N, is monotonically non-decreasing in i, and once the count
has strictly increased an earlier value never recurs. -/
theorem c2_reveal_monotone (total N i j l : Nat) (hij : i ≤ j) (hjl : j ≤ l) :
    revealCount total N i ≤ revealCount total N j
    ∧ (revealCount total N i < revealCount total N j →
        revealCount total N i < revealCount total N l) := by
  have mono : ∀ {a b2 : Nat}, a ≤ b2 → revealCount total N a ≤ revealCount total N b2 := by
    intro a b2 hab
    exact Nat.div_le_div_right (Nat.mul_le_mul_left total (Nat.succ_le_succ hab))
  exact ⟨mono hij, fun hlt => lt_of_lt_of_le hlt (mono hjl)⟩

/-- C2 witness: revealed counts for a 5-primitive plan over 3 frames at indices
0, 1, 2. -/
theorem c2_reveal_monotone_witness :
    revealCount 5 3 0 ≤ revealCount 5 3 1
    ∧ (revealCount 5 3 0 < revealCount 5 3 1 →
        revealCount 5 3 0 < revealCount 5 3 2) :=
  c2_reveal_monotone 5 3 0 1 2 (by decide) (by decide)

/-- C3 counterexample: in the whiteboard variant there is no full-canvas
fallback: with the image loaded and zero primitives surviving the noise filter
the guard fails and create_whiteboard_animation returns False instead of
falling back, so the claim does not hold in every variant. -/
theorem c3_counterexample_whiteboard_no_fallback :
    wbRunProceeds true [] [] = false := rfl

/-- C3 amended: in the pixel-based variants (color and highlight) a mask with
zero surviving pixels falls back to the full canvas, so the synthesizer
receives a nonempty plan whenever the output dimensions are positive; the
whiteboard variant instead aborts the run. -/
theorem c3_amended_fallback_nonempty (mask : List (List Bool))
    (height width : Nat) (hh : 0 < height) (hw : 0 < width) :
    strokePixelsWithFallback mask height width ≠ [] := by
  unfold strokePixelsWithFallback
  by_cases hp : (whereNonzero mask).length = 0
  · simp only [hp, if_pos rfl]
    obtain ⟨h2, rfl⟩ : ∃ h2, height = h2 + 1 := ⟨height - 1, by omega⟩
    obtain ⟨w2, rfl⟩ : ∃ w2, width = w2 + 1 := ⟨width - 1, by omega⟩
    simp [whereNonzero, mapIdxFrom, List.replicate_succ]
  · simp only [hp, if_neg hp]
    exact List.length_pos.mp (Nat.pos_of_ne_zero hp)

/-- C3 amended witness: a 1x1 all-background mask still yields a nonempty plan
in the color variant. -/
theorem c3_amended_fallback_witness :
    0 < 1 ∧ strokePixelsWithFallback [[false]] 1 1 ≠ [] :=
  ⟨by decide, c3_amended_fallback_nonempty [[false]] 1 1 (by decide) (by decide)⟩

/-- C4: the hold branch of the whiteboard frame loop is dead whenever at least
one color fill exists, because the preceding elif (frame_idx >= outline_frames
and color_fills) captures every frame index past the outline pass.  Concretely,
with outline_frames = 10, color_frames = 6 and total_frames = 20 the nominal
hold segment is frames 16..19, yet frame 19 is routed to the fill pass and, for
a black 1x1 raster with no outline paths and one fill covering nothing, renders
white instead of the raster, contradicting the in-code comments, the log line
about holding the complete image, and the metadata flag promising full
resemblance. -/
theorem c4_hold_phase_dead_branch :
    wbPhase 10 [] [⟨fun _ _ => false⟩] 19 = WBPhase.fill
    ∧ renderWBFrame [] [⟨fun _ _ => false⟩] [[black]] 1 1 10 6 19 = [[white]]
    ∧ [[white]] ≠ ([[black]] : Image) := by
  refine ⟨rfl, rfl, by decide⟩

/-- C5 counterexample: the v2 pipeline reports the identical outcome for a wait
timeout and for exit code 1 (both collapse to success = false with the process
left running), so timeout is not a distinct outcome and the encoder process is
not terminated. -/
theorem c5_counterexample_timeout_not_distinct :
    finishV2 WaitResult.timedOut = finishV2 (WaitResult.exited 1)
    ∧ (finishV2 WaitResult.timedOut).processKilled = false := by
  exact ⟨by rfl, rfl⟩

/-- C5 amended: when the encoder does not exit within the 60 time unit bound,
TimeoutExpired propagates into the blanket exception handler, so the run
surfaces exactly the same generic failure as any non-zero exit code; the
encoder process is not terminated; the temporary directory is still removed by
the finally block. -/
theorem c5_amended_timeout_generic_failure (c : Int) (hc : c ≠ 0) :
    finishV2 (WaitResult.exited c) = finishV2 WaitResult.timedOut
    ∧ (finishV2 WaitResult.timedOut).success = false
    ∧ (finishV2 WaitResult.timedOut).processKilled = false
    ∧ (finishV2 WaitResult.timedOut).tempDirRemoved = true := by
  refine ⟨?_, rfl, rfl, rfl⟩
  simp [finishV2, hc]

/-- C5 amended witness: exit code 1 produces the same run end as a timeout. -/
theorem c5_amended_timeout_witness :
    (1 : Int) ≠ 0 ∧ finishV2 (WaitResult.exited 1) = finishV2 WaitResult.timedOut :=
  ⟨by decide, (c5_amended_timeout_generic_failure 1 (by decide)).1⟩

/-- C6 counterexample: on a broken-pipe failure inside the streaming pipeline
the temp directory is removed but the encoder subprocess is never terminated,
refuting the termination half of the claim. -/
theorem c6_counterexample_no_process_kill :
    (processRun StreamEnd.brokenPipe).processKilled = false
    ∧ (processRun StreamEnd.brokenPipe).success = false
    ∧ (processRun StreamEnd.brokenPipe).tempDirRemoved = true :=
  ⟨rfl, rfl, rfl⟩

/-- C6 amended: for every way the streaming phase ends (broken pipe, write
exception, timeout, any exit code) the per-run temp directory is removed before
the outcome is surfaced, and on a zero exit the run succeeds; but no code path
terminates the encoder subprocess. -/
theorem c6_amended_cleanup_without_kill :
    (∀ e : StreamEnd, (processRun e).tempDirRemoved = true
      ∧ (processRun e).processKilled = false)
    ∧ (processRun (StreamEnd.exited 0)).success = true := by
  refine ⟨fun e => ?_, by rfl⟩
  cases e <;> exact ⟨rfl, rfl⟩

/-- C7: the drawing-plan orderings of the color and highlight extractors are
deterministic functions of the plan pixels alone: the code reseeds the global
NumPy generator with the constant 42 before drawing the jitter, so two runs
under arbitrary (and different) ambient generator states produce identical
orderings. -/
theorem c7_extractor_deterministic (env1 env2 : NpRng) (px : List (Nat × Nat)) :
    colorOrderedPixels env1 px = colorOrderedPixels env2 px
    ∧ highlightOrderedPixels env1 px = highlightOrderedPixels env2 px :=
  ⟨rfl, rfl⟩

/-- C8 counterexample: at frame 0 only the value of sine at 0 matters (sin 0 =
0, and the frequency multiplies the frame index, so any k gives the same
argument 0).  The whiteboard cursor size is int(20 * 0.85) = 17, while the
claimed base * (0.8 + 0.2 * sin(0 * k)) with the code base 20 floors to 16: the
whiteboard cursor does not follow the claimed 0.8 + 0.2 pulse shape. -/
theorem c8_counterexample_wb_pulse :
    wbCursorSize sinAtZero 0 = 17
    ∧ ⌊claimedCursorRadius 20 (2 / 10) sinAtZero 0⌋ = 16
    ∧ (17 : ℤ) ≠ 16 := by
  refine ⟨?_, ?_, by decide⟩ <;>
    norm_num [wbCursorSize, wbPulse, claimedCursorRadius, sinAtZero]

/-- C8 amended: the highlight cursor radius matches the claimed formula exactly
with base 25 and k = 0.3, and it is keyed only on the frame index; the
whiteboard cursor instead pulses as int(20 * (0.85 + 0.15 * sin(0.2 * i))),
which at frame 0 yields 17 while every instance of the claimed formula with the
code base 20 yields 16 there. -/
theorem c8_amended_cursor_pulse (s : ℚ → ℚ) (hs : s 0 = 0) (i : Nat) :
    hlCursorRadius s i = ⌊claimedCursorRadius 25 (3 / 10) s i⌋
    ∧ wbCursorSize s 0 = 17
    ∧ ∀ kf : ℚ, ⌊claimedCursorRadius 20 kf s 0⌋ = 16 := by
  refine ⟨rfl, ?_, ?_⟩
  · norm_num [wbCursorSize, wbPulse, hs]
  · intro kf
    norm_num [claimedCursorRadius, hs]

/-- C8 amended witness: instantiated at the sine stand-in and frame 0. -/
theorem c8_amended_cursor_witness :
    sinAtZero 0 = 0 ∧ wbCursorSize sinAtZero 0 = 17 :=
  ⟨rfl, (c8_amended_cursor_pulse sinAtZero rfl 0).2.1⟩

/-- C9 counterexample: with the default cv2.erode border handling, an
all-foreground binary image is a fixed point of the erosion, so for the
all-foreground 2x2 image the skeletonization while-loop never reaches zero
foreground pixels: it does not terminate, refuting the unconditional
termination claim. -/
theorem c9_counterexample_all_foreground_never_exits :
    ¬ skelLoopExits allFg2 := by
  have hfix : ∀ n, erodeIter n allFg2 = allFg2 := by
    intro n
    induction n with
    | zero => rfl
    | succ n ih =>
      show erode3 (erodeIter n allFg2) = allFg2
      rw [ih]
      funext y x
      simp [erode3, allFg2]
  rintro ⟨n, hn⟩
  rw [hfix n] at hn
  exact absurd hn (by decide)

/-- C9 amended: whenever the thresholded binary image contains at least one
background pixel, the erosion chain of the skeletonization loop reaches an
image with zero foreground pixels within max(H, W) iterations (the background
dilates by one Chebyshev step per erosion, so the iteration count is bounded by
the Chebyshev distance from the deepest foreground pixel to the background,
i.e. the thickness of the thickest blob); for an all-foreground binary the loop
never exits. -/
theorem c9_amended_erosion_terminates (H W : Nat) (b : Bin H W)
    (qy : Fin H) (qx : Fin W) (hq : b qy qx = false) :
    ∃ n ≤ max H W, countNZ (erodeIter n b) = 0 := by
  refine ⟨max H W, le_refl _, countNZ_eq_zero_iff.mpr ?_⟩
  intro py px
  apply bgReach (max H W) b py qy px qx hq
  · have h1 := py.isLt
    have h2 := qy.isLt
    simp only [Nat.dist]
    omega
  · have h1 := px.isLt
    have h2 := qx.isLt
    simp only [Nat.dist]
    omega

/-- C9 amended witness: a 2x2 binary with one background pixel is fully eroded
within max(2, 2) iterations. -/
theorem c9_amended_erosion_witness :
    oneBg2 0 0 = false ∧ ∃ n ≤ max 2 2, countNZ (erodeIter n oneBg2) = 0 :=
  ⟨by decide, c9_amended_erosion_terminates 2 2 oneBg2 0 0 (by decide)⟩

/-- C10: with OpenCV available, render_svg_frame_simple never returns None: an
internal rendering exception yields an all-white canvas of exactly the
requested height x width shape, so every frame index contributes a frame to
rendered_frames (none are skipped) and the run does not fail for that reason;
it returns None only when OpenCV is absent. -/
theorem c10_render_white_on_failure (height width N : Nat)
    (body : Nat → Option Image) :
    renderSvgFrameSimple true height width none = some (whiteCanvas height width)
    ∧ hasDims (whiteCanvas height width) height width
    ∧ (∀ row ∈ whiteCanvas height width, ∀ p ∈ row, p = white)
    ∧ (∀ r : Option Image, (renderSvgFrameSimple true height width r).isSome = true)
    ∧ renderSvgFrameSimple false height width (body 0) = none
    ∧ (renderedFramesTrace true height width N body).length = N := by
  refine ⟨rfl, hasDims_whiteCanvas height width, ?_, ?_, rfl, ?_⟩
  · intro row hr p hp
    rw [List.eq_of_mem_replicate hr] at hp
    exact List.eq_of_mem_replicate hp
  · intro r
    cases r <;> rfl
  · unfold renderedFramesTrace
    rw [length_filterMap_of_isSome _ (fun i _ => by cases body i <;> rfl)]
    exact List.length_range N

end VideoGen
